import Mathlib

/-!
Shallow embedding of `src/packagebox.py` (a manifest-driven package manager)
together with proofs of the specified properties.

Modelling conventions:
* Python `str` is `List Char` (`PyStr`); Python byte strings are `List Nat`
  (each entry one byte).
* Filesystem paths are lists of components (`PyPath`); the installer state
  `St` holds the set of existing directories, the files with their byte
  contents, the parsed view of the manifest cache (`packages.json`) and of
  the record file (`record.json`).
* Ambient effects (current platform, the network, the interactive prompt
  answer, the clock) are an explicit environment `Env`.
* `handle_error` calls `sys.exit(1)`; this is modelled by the outcome
  `Outcome.error e` which aborts the caller (in the wildcard install loop a
  `sys.exit` propagates, hence the fail-fast behaviour).
-/

namespace PackageBox

/-! ## Python string primitives -/

/-- Python `str` modelled as a list of characters. -/
abbrev PyStr := List Char

/-- A filesystem path as a list of components (the platform specific
root such as `%APPDATA%` or `~/Library/Application Support` is the first
component(s)). -/
abbrev PyPath := List PyStr

/-- Characters treated as whitespace by Python's `str.strip()`. -/
def isPySpace (c : Char) : Bool :=
  c == ' ' || c == '\t' || c == '\n' || c == '\r' ||
  c == Char.ofNat 11 || c == Char.ofNat 12

/-- Python `str.strip()`: remove leading and trailing whitespace. -/
def pyStrip (s : PyStr) : PyStr :=
  ((s.dropWhile isPySpace).reverse.dropWhile isPySpace).reverse

/-- Python `str.lower()` (ASCII case mapping, which is all the source uses). -/
def pyLower (s : PyStr) : PyStr := s.map Char.toLower

/-- Python `str.split(sep)` for a one-character separator.
`"a.b".split "." = ["a","b"]`, `"".split "." = [""]`, `"a..b" = ["a","","b"]`. -/
def pySplit (sep : Char) : PyStr → List PyStr
  | [] => [[]]
  | c :: rest =>
    if c = sep then [] :: pySplit sep rest
    else
      match pySplit sep rest with
      | [] => [[c]]
      | h :: t => (c :: h) :: t

/-! ## SHA-256 (`hashlib.sha256`), over byte lists -/

/-- `2 ^ 32`, the modulus of the 32-bit words of SHA-256. -/
def M32 : Nat := 4294967296

/-- 32-bit modular addition. -/
def add32 (a b : Nat) : Nat := (a + b) % M32

/-- 32-bit right rotation. -/
def rotr32 (k x : Nat) : Nat := ((x >>> k) ||| (x <<< (32 - k))) % M32

/-- 32-bit bitwise complement (of a value `< 2^32`). -/
def not32 (x : Nat) : Nat := (M32 - 1) ^^^ x

/-- The 64 SHA-256 round constants. -/
def shaK : List Nat :=
  [1116352408, 1899447441, 3049323471, 3921009573,
   961987163, 1508970993, 2453635748, 2870763221,
   3624381080, 310598401, 607225278, 1426881987,
   1925078388, 2162078206, 2614888103, 3248222580,
   3835390401, 4022224774, 264347078, 604807628,
   770255983, 1249150122, 1555081692, 1996064986,
   2554220882, 2821834349, 2952996808, 3210313671,
   3336571891, 3584528711, 113926993, 338241895,
   666307205, 773529912, 1294757372, 1396182291,
   1695183700, 1986661051, 2177026350, 2456956037,
   2730485921, 2820302411, 3259730800, 3345764771,
   3516065817, 3600352804, 4094571909, 275423344,
   430227734, 506948616, 659060556, 883997877,
   958139571, 1322822218, 1537002063, 1747873779,
   1955562222, 2024104815, 2227730452, 2361852424,
   2428436474, 2756734187, 3204031479, 3329325298]

/-- The SHA-256 initial hash value (eight 32-bit words). -/
def shaH0 : List Nat :=
  [1779033703, 3144134277, 1013904242, 2773480762,
   1359893119, 2600822924, 528734635, 1541459225]

/-- Message-schedule function sigma-0. -/
def smallSigma0 (x : Nat) : Nat := (rotr32 7 x) ^^^ (rotr32 18 x) ^^^ (x >>> 3)

/-- Message-schedule function sigma-1. -/
def smallSigma1 (x : Nat) : Nat := (rotr32 17 x) ^^^ (rotr32 19 x) ^^^ (x >>> 10)

/-- Round function capital-Sigma-0. -/
def bigSigma0 (x : Nat) : Nat := (rotr32 2 x) ^^^ (rotr32 13 x) ^^^ (rotr32 22 x)

/-- Round function capital-Sigma-1. -/
def bigSigma1 (x : Nat) : Nat := (rotr32 6 x) ^^^ (rotr32 11 x) ^^^ (rotr32 25 x)

/-- Big-endian combination of four bytes into a 32-bit word. -/
def word4 (b0 b1 b2 b3 : Nat) : Nat := ((b0 * 256 + b1) * 256 + b2) * 256 + b3

/-- Split a 64-byte block into sixteen big-endian 32-bit words. -/
def toWords : List Nat → List Nat
  | b0 :: b1 :: b2 :: b3 :: rest => word4 b0 b1 b2 b3 :: toWords rest
  | _ => []

/-- Extend a 16-word message schedule by `n` further words. -/
def extendSchedule (w : List Nat) : Nat → List Nat
  | 0 => w
  | Nat.succ n =>
    let w' := extendSchedule w n
    let i := 16 + n
    w' ++ [((w'.getD (i - 16) 0 + smallSigma0 (w'.getD (i - 15) 0)) +
            w'.getD (i - 7) 0 + smallSigma1 (w'.getD (i - 2) 0)) % M32]

/-- The eight working registers of the compression function. -/
structure Regs where
  a : Nat
  b : Nat
  c : Nat
  d : Nat
  e : Nat
  f : Nat
  g : Nat
  h : Nat
deriving DecidableEq

/-- One round of the SHA-256 compression function. -/
def shaRound (r : Regs) (ki wi : Nat) : Regs :=
  let t1 := (r.h + bigSigma1 r.e + ((r.e &&& r.f) ^^^ (not32 r.e &&& r.g)) + ki + wi) % M32
  let t2 := (bigSigma0 r.a + ((r.a &&& r.b) ^^^ (r.a &&& r.c) ^^^ (r.b &&& r.c))) % M32
  { a := (t1 + t2) % M32, b := r.a, c := r.b, d := r.c,
    e := (r.d + t1) % M32, f := r.e, g := r.f, h := r.g }

/-- The SHA-256 compression function: absorb one 64-byte block into the
eight-word chaining value. -/
def compress (h : List Nat) (block : List Nat) : List Nat :=
  let w := extendSchedule (toWords block) 48
  let r0 : Regs := { a := h.getD 0 0, b := h.getD 1 0, c := h.getD 2 0, d := h.getD 3 0,
                     e := h.getD 4 0, f := h.getD 5 0, g := h.getD 6 0, h := h.getD 7 0 }
  let rf := (List.zip shaK w).foldl (fun r p => shaRound r p.1 p.2) r0
  [add32 (h.getD 0 0) rf.a, add32 (h.getD 1 0) rf.b, add32 (h.getD 2 0) rf.c,
   add32 (h.getD 3 0) rf.d, add32 (h.getD 4 0) rf.e, add32 (h.getD 5 0) rf.f,
   add32 (h.getD 6 0) rf.g, add32 (h.getD 7 0) rf.h]

/-- Big-endian 8-byte encoding of a natural number. -/
def be8 (n : Nat) : List Nat :=
  [n >>> 56 % 256, n >>> 48 % 256, n >>> 40 % 256, n >>> 32 % 256,
   n >>> 24 % 256, n >>> 16 % 256, n >>> 8 % 256, n % 256]

/-- SHA-256 padding appended to a message of `len` bytes: a `0x80` byte,
`(119 - len % 64) % 64` zero bytes (so that the padded length is a
multiple of 64), and the bit length in 8 big-endian bytes. -/
def padBytes (len : Nat) : List Nat :=
  0x80 :: List.replicate ((119 - len % 64) % 64) 0 ++ be8 (len * 8)

/-- Split a byte list into chunks of `k` bytes (fuel-indexed so that the
recursion is structural and kernel-reducible). -/
def chunksAux (k : Nat) : Nat → List Nat → List (List Nat)
  | _, [] => []
  | 0, _ => []
  | fuel + 1, l => l.take k :: chunksAux k fuel (l.drop k)

/-- Split a byte list into consecutive chunks of `k` bytes; the final chunk
may be shorter.  For `k = 64` these are the SHA-256 blocks, for `k = 4096`
the file-read chunks of `validate_checksum`. -/
def chunksOf (k : Nat) (l : List Nat) : List (List Nat) := chunksAux k l.length l

/-- The sixteen lowercase hexadecimal digits, in order. -/
def hexDigitChars : List Char := "0123456789abcdef".toList

/-- Two lowercase hex characters of one byte. -/
def hexByte (n : Nat) : List Char :=
  [hexDigitChars.getD (n / 16 % 16) '0', hexDigitChars.getD (n % 16) '0']

/-- Eight lowercase hex characters of one 32-bit word, big-endian. -/
def wordHex (w : Nat) : List Char :=
  hexByte (w >>> 24 % 256) ++ hexByte (w >>> 16 % 256) ++ hexByte (w >>> 8 % 256) ++ hexByte (w % 256)

/-- Lowercase hex encoding of an eight-word hash value (`hexdigest`). -/
def digestHex (h : List Nat) : List Char := (h.map wordHex).flatten

/-- One-shot SHA-256 of a whole message, as a lowercase hex string.
This is the digest of the file content hashed wholesale; the streaming
computation of the source is `validate_checksum` below. -/
def sha256Hex (msg : List Nat) : List Char :=
  digestHex ((chunksOf 64 (msg ++ padBytes msg.length)).foldl compress shaH0)

/-! ## The streaming hash object (`hashlib.sha256()` with `update`) -/

/-- The state of a `hashlib.sha256()` object: chaining value, buffered
bytes not yet forming a full 64-byte block, and total bytes absorbed. -/
structure HashCtx where
  hv : List Nat
  buf : List Nat
  total : Nat

/-- A fresh `hashlib.sha256()` object. -/
def initCtx : HashCtx := { hv := shaH0, buf := [], total := 0 }

/-- `ctx.update(data)`: absorb bytes, compressing each complete 64-byte
block and buffering the remainder. -/
def updateCtx (c : HashCtx) (data : List Nat) : HashCtx :=
  let b := c.buf ++ data
  let nb := b.length / 64
  { hv := (chunksOf 64 (b.take (64 * nb))).foldl compress c.hv,
    buf := b.drop (64 * nb),
    total := c.total + data.length }

/-- `ctx.hexdigest()`: pad the buffered remainder with the total length and
produce the lowercase hex digest. -/
def hexdigestCtx (c : HashCtx) : List Char :=
  digestHex ((chunksOf 64 (c.buf ++ padBytes c.total)).foldl compress c.hv)

/-- `validate_checksum(file_path, expected_hash)` from the source: stream
the file's bytes through `hashlib.sha256` in 4096-byte chunks
(`iter(lambda: f.read(4096), b"")`) and compare the lowercase hex digest
with `expected_hash` by exact string equality. -/
def validate_checksum (content : List Nat) (expected_hash : PyStr) : Bool :=
  hexdigestCtx ((chunksOf 4096 content).foldl updateCtx initCtx) == expected_hash

/-! ## Data model -/

/-- One manifest entry (an element of `data["packages"]`).  The `url` and
`sha256` fields are the platform-keyed mappings of the JSON. -/
structure Package where
  name : PyStr
  version : PyStr
  description : PyStr
  os : List PyStr
  requirepath : Bool
  shortcut : Bool
  url : List (PyStr × PyStr)
  sha256 : List (PyStr × PyStr)
deriving DecidableEq

/-- One value of the installation record mapping. -/
structure RecEntry where
  version : PyStr
  installed_on : PyStr
deriving DecidableEq

/-- The installation record: a JSON object, i.e. an ordered mapping from
package name to entry (keys unique, insertion ordered, like a Python dict). -/
abbrev Record := List (PyStr × RecEntry)

/-- The observable state of a JSON file on disk: absent, present but not
valid JSON, or present and parsed to a value of type `α`. -/
inductive JsonFile (α : Type) where
  | absent : JsonFile α
  | malformed : JsonFile α
  | stored (a : α) : JsonFile α
deriving DecidableEq

/-- The filesystem and persisted state the package manager manipulates. -/
structure St where
  packagesFile : JsonFile (List Package)
  recordFile : JsonFile Record
  dirs : List PyPath
  files : List (PyPath × List Nat)
deriving DecidableEq

/-- Distinct error classes of the `handle_error` call sites (each prints a
distinct message and exits with code 1). -/
inductive Err where
  | notFound : Err
  | unsupportedPlatform : Err
  | network : Err
  | parse : Err
  | integrity : Err
  | other : Err
deriving DecidableEq

/-- How one command invocation ends: normal return, clean cancellation at a
confirmation prompt (also a normal return), or `handle_error`/`sys.exit(1)`. -/
inductive Outcome where
  | ok : Outcome
  | cancelled : Outcome
  | error (e : Err) : Outcome
deriving DecidableEq

/-- The process exit code: `1` on any `handle_error` path, `0` otherwise
(including clean cancellations). -/
def exitCode : Outcome → Nat
  | .error _ => 1
  | _ => 0

/-- The ambient effects of one invocation: the current platform
(`platform.system()`), the network (`urllib.request.urlretrieve`, `none`
meaning the transfer fails), the parsed state the manifest cache has after
a successful bootstrap download, the interactive prompt answer (`input()`),
and the current clock reading (`datetime.now().isoformat()`). -/
structure Env where
  platformName : PyStr
  net : PyStr → Option (List Nat)
  manifestFetch : Option (JsonFile (List Package))
  answer : PyStr
  now : PyStr

/-! ## Path resolution (`get_installation_path`) -/

/-- Abstract root used on Windows (`os.getenv('APPDATA')`). -/
def winRoot : PyPath := ["%APPDATA%".toList]

/-- Abstract root used elsewhere (`Path.home() / "Library" / "Application Support"`). -/
def macRoot : PyPath := ["~".toList, "Library".toList, "Application Support".toList]

/-- `get_installation_path(package_name)`: the per-package install
directory, `<root>/radonteam/<package_name>`.  Note that the final
component is the caller-supplied spelling of the name. -/
def get_installation_path (platformName package_name : PyStr) : PyPath :=
  if platformName = "Windows".toList then winRoot ++ ["radonteam".toList, package_name]
  else macRoot ++ ["radonteam".toList, package_name]

/-- `pathlib`'s `/` operator with a string on the right: the string is
split on `/` into (non-empty) components. -/
def pathJoin (p : PyPath) (s : PyStr) : PyPath :=
  p ++ (pySplit '/' s).filter (fun seg => !seg.isEmpty)

/-- The file extension the installer derives from a URL:
`url.split('.')[-1]`. -/
def extOf (url : PyStr) : PyStr := (pySplit '.' url).getLastD []

/-- The artifact filename `f"{package_name}.{url.split('.')[-1]}"`. -/
def artifactName (package_name url : PyStr) : PyStr :=
  package_name ++ '.' :: extOf url

/-- The full path the artifact is downloaded to:
`install_path / f"{package_name}.{url.split('.')[-1]}"`. -/
def downloadPath (platformName package_name url : PyStr) : PyPath :=
  pathJoin (get_installation_path platformName package_name) (artifactName package_name url)

/-! ## Record persistence -/

/-- `read_record()` over the decodable record-file states the installer
and uninstaller operate on: the record mapping, or the empty mapping when
the record file is absent (`not record_file.exists()`) or malformed
(`json.JSONDecodeError`).  The full byte-level behaviour, including the
state on which the source raises, is `read_record_raw` below. -/
def read_record : JsonFile Record → Record
  | .stored r => r
  | _ => []

/-- The byte-level observable states of the record file: absent; present
with bytes that do not decode as text (so the text-mode `open(...)`read
raises `UnicodeDecodeError`); present and decodable but not valid JSON
(`json.JSONDecodeError`); present and parsed to a record. -/
inductive RawFile where
  | absent : RawFile
  | undecodable : RawFile
  | badJson : RawFile
  | jsonRecord (r : Record) : RawFile
deriving DecidableEq

/-- The exception that escapes `read_record`'s
`except (FileNotFoundError, json.JSONDecodeError)` clause. -/
inductive PyExc where
  | unicodeDecodeError : PyExc
deriving DecidableEq

/-- `read_record()` translated from source lines 44-52 at the byte level:
an absent file returns the empty mapping before opening; `json.load` on a
decodable file either parses or raises the caught `JSONDecodeError`
(empty mapping); but reading a file whose bytes do not decode raises
`UnicodeDecodeError`, which is not in the except tuple and propagates. -/
def read_record_raw : RawFile → Except PyExc Record
  | .absent => .ok []
  | .undecodable => .error .unicodeDecodeError
  | .badJson => .ok []
  | .jsonRecord r => .ok r

/-- Does the record have an entry for `k` (Python `k in record`)? -/
def recordHasKey (r : Record) (k : PyStr) : Bool := r.any (fun p => p.1 == k)

/-- Python `record[k]`. -/
def recordGet (r : Record) (k : PyStr) : Option RecEntry :=
  (r.find? (fun p => p.1 == k)).map (fun p => p.2)

/-- Python `record[k] = v` on a dict: overwrite in place when the key is
present, append otherwise. -/
def recordSet (r : Record) (k : PyStr) (v : RecEntry) : Record :=
  if recordHasKey r k then r.map (fun p => if p.1 == k then (k, v) else p)
  else r ++ [(k, v)]

/-- Python `del record[k]`. -/
def recordDelete (r : Record) (k : PyStr) : Record :=
  r.filter (fun p => !(p.1 == k))

/-! ## Filesystem primitives -/

/-- `mkdir(parents=True, exist_ok=True)` restricted to the directory set. -/
def mkdirP (st : St) (p : PyPath) : St :=
  if p ∈ st.dirs then st else { st with dirs := p :: st.dirs }

/-- Write (or overwrite) a file. -/
def writeFile (st : St) (p : PyPath) (c : List Nat) : St :=
  { st with files := (p, c) :: st.files.filter (fun q => !(q.1 == p)) }

/-- Read a file's bytes, if present. -/
def readFile (st : St) (p : PyPath) : Option (List Nat) :=
  (st.files.find? (fun q => q.1 == p)).map (fun q => q.2)

/-- `shutil.rmtree(p)`: remove the directory and everything beneath it. -/
def removeTree (st : St) (p : PyPath) : St :=
  { st with
    dirs := st.dirs.filter (fun d => !(p.isPrefixOf d)),
    files := st.files.filter (fun f => !(p.isPrefixOf f.1)) }

/-! ## Manifest handling -/

/-- `ensure_packages_file()`: when the manifest cache is absent, download
it from the bootstrap URL; a failed download is `handle_error` (network). -/
def ensure_packages_file (env : Env) (st : St) : Except Err St :=
  match st.packagesFile with
  | .absent =>
    match env.manifestFetch with
    | none => .error .network
    | some jf => .ok { st with packagesFile := jf }
  | _ => .ok st

/-- Open and parse the manifest cache (`json.load` on `get_json_path()`),
extracting `data.get("packages", [])`. -/
def loadPackages (st : St) : Except Err (List Package)  :=
  match st.packagesFile with
  | .stored pkgs => .ok pkgs
  | .malformed => .error .parse
  | .absent => .error .notFound

/-- Manifest lookup by case-insensitive name match:
`next((pkg for pkg in packages if pkg["name"].lower() == package_name.lower()), None)`. -/
def lookupPackage (pkgs : List Package) (package_name : PyStr) : Option Package :=
  pkgs.find? (fun pkg => pyLower pkg.name == pyLower package_name)

/-- Platform-keyed mapping lookup (Python `d[key]`, `none` = `KeyError`). -/
def lookupAssoc (m : List (PyStr × PyStr)) (k : PyStr) : Option PyStr :=
  (m.find? (fun p => p.1 == k)).map (fun p => p.2)

/-- Is the (stripped, lowercased) prompt answer the affirmative `"y"`? -/
def confirmAffirmative (a : PyStr) : Bool := pyLower (pyStrip a) == "y".toList

/-! ## Install -/

/-- The body of `install_package` for a literal (non-`"*"`) name, from the
manifest lookup onward (source lines 159-195): platform gate, confirmation
prompt, URL/hash lookup, directory creation, download, checksum
verification, optional shortcut (a desktop-only best-effort side effect
that touches none of the modelled state and degrades to a warning), and
finally the record update.  The artifact's bytes are re-read from the just
written file for verification; no other process runs, so they are the
downloaded bytes. -/
def installCore (env : Env) (pkgs : List Package) (package_name : PyStr)
    (skip_confirmation : Bool) (st : St) : Outcome × St :=
  match lookupPackage pkgs package_name with
  | none => (.error .notFound, st)
  | some pkg =>
    if env.platformName ∈ pkg.os then
      if !skip_confirmation && !confirmAffirmative env.answer then (.cancelled, st)
      else
        match lookupAssoc pkg.url env.platformName with
        | none => (.error .other, st)
        | some url =>
          match lookupAssoc pkg.sha256 env.platformName with
          | none => (.error .other, st)
          | some sha =>
            let install_path := get_installation_path env.platformName package_name
            let st1 := mkdirP st install_path
            let download_path := downloadPath env.platformName package_name url
            match env.net url with
            | none => (.error .network, st1)
            | some content =>
              let st2 := writeFile st1 download_path content
              if validate_checksum content sha then
                if install_path ∈ st2.dirs then
                  let record := read_record st2.recordFile
                  let record2 := recordSet record package_name
                    { version := pkg.version, installed_on := env.now }
                  (.ok, { st2 with recordFile := .stored record2 })
                else (.ok, st2)
              else (.error .integrity, st2)
    else (.error .unsupportedPlatform, st)

/-- One recursive `install_package(name, ...)` call for a literal name:
ensure the manifest cache exists, parse it, then run `installCore`.
(The Python wildcard loop re-enters `install_package`, which re-runs
`ensure_packages_file` and `json.load`; both are idempotent here since the
manifest cache is present and unchanged.) -/
def installSingle (env : Env) (package_name : PyStr) (skip_confirmation : Bool)
    (st : St) : Outcome × St :=
  match ensure_packages_file env st with
  | .error e => (.error e, st)
  | .ok st1 =>
    match loadPackages st1 with
    | .error e => (.error e, st1)
    | .ok pkgs => installCore env pkgs package_name skip_confirmation st1

/-- The wildcard loop `for package in packages: install_package(package['name'], ...)`.
A `handle_error` (`sys.exit(1)`) in a sub-install aborts the whole batch;
a clean cancellation of one package continues with the next. -/
def installList (env : Env) (skip_confirmation : Bool) :
    List PyStr → St → Outcome × St
  | [], st => (.ok, st)
  | n :: rest, st =>
    match installSingle env n skip_confirmation st with
    | (.error e, st') => (.error e, st')
    | (_, st') => installList env skip_confirmation rest st'

/-- `install_package(package_name, skip_confirmation)` (source lines
149-199).  A name of `"*"` expands to installing every manifest package by
its manifest name, sequentially; any other name is installed directly.
(If a manifest package were itself literally named `"*"`, the Python
recursion would re-expand it forever; the model treats that name as a
literal lookup instead, and the theorems about the wildcard exclude it.) -/
def install_package (env : Env) (package_name : PyStr) (skip_confirmation : Bool)
    (st : St) : Outcome × St :=
  match ensure_packages_file env st with
  | .error e => (.error e, st)
  | .ok st1 =>
    match loadPackages st1 with
    | .error e => (.error e, st1)
    | .ok pkgs =>
      if package_name = "*".toList then
        installList env skip_confirmation (pkgs.map (fun p => p.name)) st1
      else installCore env pkgs package_name skip_confirmation st1

/-! ## Uninstall -/

/-- `uninstall_package(package_name, skip_confirmation)` (source lines
60-77): existence check on the install directory, confirmation prompt,
recursive removal, then record-entry deletion when an entry is present
(the record file is not rewritten when no entry exists). -/
def uninstall_package (env : Env) (package_name : PyStr) (skip_confirmation : Bool)
    (st : St) : Outcome × St :=
  let install_path := get_installation_path env.platformName package_name
  if install_path ∈ st.dirs then
    if !skip_confirmation && !confirmAffirmative env.answer then (.cancelled, st)
    else
      let st1 := removeTree st install_path
      let record := read_record st1.recordFile
      if recordHasKey record package_name then
        (.ok, { st1 with recordFile := .stored (recordDelete record package_name) })
      else (.ok, st1)
  else (.error .notFound, st)

/-! ## Derived definitions used by the statements -/

/-- Invariant tying a hash object to the message absorbed so far: the
chaining value is the compression of some block-aligned prefix, and the
buffer holds the rest. -/
def ctxInv (c : HashCtx) (msg : List Nat) : Prop :=
  ∃ p : List Nat, msg = p ++ c.buf ∧ p.length % 64 = 0 ∧
    c.hv = (chunksOf 64 p).foldl compress shaH0 ∧ c.total = msg.length

/-- How many entries of the record carry the key `k`. -/
def countKey (r : Record) (k : PyStr) : Nat := (r.filter (fun p => p.1 == k)).length

/-- The environment lets `pkg` install successfully: the platform is
supported, the platform has a URL and an expected hash, the download
succeeds, and the downloaded bytes hash to the expected value. -/
def goodInstall (env : Env) (pkg : Package) : Prop :=
  env.platformName ∈ pkg.os ∧
  ∃ url sha content,
    lookupAssoc pkg.url env.platformName = some url ∧
    lookupAssoc pkg.sha256 env.platformName = some sha ∧
    env.net url = some content ∧
    sha256Hex content = sha

/-- The environment makes `pkg` fail integrity verification: everything
succeeds up to the download, but the downloaded bytes do not hash to the
manifest's expected value. -/
def badInstall (env : Env) (pkg : Package) : Prop :=
  env.platformName ∈ pkg.os ∧
  ∃ url sha content,
    lookupAssoc pkg.url env.platformName = some url ∧
    lookupAssoc pkg.sha256 env.platformName = some sha ∧
    env.net url = some content ∧
    sha256Hex content ≠ sha

/-! ## Concrete fixtures used to instantiate the theorems -/

/-- A package that installs successfully on Linux in `wEnv`. -/
def wPkg : Package :=
  { name := "Foo".toList, version := "1.0".toList, description := [],
    os := ["Linux".toList], requirepath := false, shortcut := false,
    url := [("Linux".toList, "http://h.example/a.zip".toList)],
    sha256 := [("Linux".toList, sha256Hex [1, 2])] }

/-- A package whose manifest hash does not match its artifact. -/
def wPkgBad : Package :=
  { name := "Bad".toList, version := "2.0".toList, description := [],
    os := ["Linux".toList], requirepath := false, shortcut := false,
    url := [("Linux".toList, "http://h.example/b.zip".toList)],
    sha256 := [("Linux".toList, "00".toList)] }

/-- A second package that installs successfully on Linux in `wEnv`. -/
def wPkg2 : Package :=
  { name := "Bar".toList, version := "3.0".toList, description := [],
    os := ["Linux".toList], requirepath := false, shortcut := false,
    url := [("Linux".toList, "http://h.example/c.zip".toList)],
    sha256 := [("Linux".toList, sha256Hex [4])] }

/-- A concrete environment: Linux platform, a network serving the three
fixture artifacts, and a non-affirmative prompt answer. -/
def wEnv : Env :=
  { platformName := "Linux".toList,
    net := fun u =>
      if u = "http://h.example/a.zip".toList then some [1, 2]
      else if u = "http://h.example/b.zip".toList then some [3]
      else if u = "http://h.example/c.zip".toList then some [4]
      else none,
    manifestFetch := none,
    answer := " maybe ".toList,
    now := "2026-01-01T00:00:00".toList }

/-- A fresh state with a stored manifest holding the given packages. -/
def wSt (pkgs : List Package) : St :=
  { packagesFile := .stored pkgs, recordFile := .absent, dirs := [], files := [] }

/-! ## Chunking lemmas -/

theorem chunksAux_congr (k : Nat) (hk : 0 < k) :
    ∀ (f1 : Nat) (l : List Nat) (f2 : Nat), l.length ≤ f1 → l.length ≤ f2 →
      chunksAux k f1 l = chunksAux k f2 l := by
  intro f1
  induction f1 with
  | zero =>
    intro l f2 h1 _
    have hl : l = [] := List.eq_nil_of_length_eq_zero (Nat.le_zero.mp h1)
    subst hl
    cases f2 <;> rfl
  | succ f ih =>
    intro l f2 h1 h2
    cases l with
    | nil => cases f2 <;> rfl
    | cons c rest =>
      cases f2 with
      | zero => simp at h2
      | succ f2' =>
        show (c :: rest).take k :: chunksAux k f ((c :: rest).drop k) =
             (c :: rest).take k :: chunksAux k f2' ((c :: rest).drop k)
        have hlen : ((c :: rest).drop k).length ≤ f := by
          simp only [List.length_drop]
          have := List.length_cons c rest ▸ h1
          omega
        have hlen2 : ((c :: rest).drop k).length ≤ f2' := by
          simp only [List.length_drop]
          have := List.length_cons c rest ▸ h2
          omega
        rw [ih _ _ hlen hlen2]

theorem chunksOf_nil (k : Nat) : chunksOf k [] = [] := rfl

theorem chunksOf_eq_cons (k : Nat) (hk : 0 < k) (l : List Nat) (hl : l ≠ []) :
    chunksOf k l = l.take k :: chunksOf k (l.drop k) := by
  cases l with
  | nil => exact absurd rfl hl
  | cons c rest =>
    show chunksAux k (rest.length + 1) (c :: rest) = _
    show (c :: rest).take k :: chunksAux k rest.length ((c :: rest).drop k) = _
    rw [chunksAux_congr k hk rest.length ((c :: rest).drop k) ((c :: rest).drop k).length
      (by simp only [List.length_drop, List.length_cons]; omega) (le_refl _)]
    rfl

theorem flatten_chunksOf_aux (k : Nat) (hk : 0 < k) :
    ∀ (n : Nat) (l : List Nat), l.length ≤ n → (chunksOf k l).flatten = l := by
  intro n
  induction n with
  | zero =>
    intro l h
    have hl : l = [] := List.eq_nil_of_length_eq_zero (Nat.le_zero.mp h)
    subst hl; rfl
  | succ n ih =>
    intro l h
    rcases eq_or_ne l [] with hl | hl
    · subst hl; rfl
    · rw [chunksOf_eq_cons k hk l hl, List.flatten_cons,
        ih (l.drop k) (by simp only [List.length_drop]; have := List.length_pos.mpr hl; omega)]
      exact List.take_append_drop k l

theorem flatten_chunksOf (k : Nat) (hk : 0 < k) (l : List Nat) :
    (chunksOf k l).flatten = l :=
  flatten_chunksOf_aux k hk l.length l (le_refl _)

theorem chunksOf_append_aux (k : Nat) (hk : 0 < k) :
    ∀ (n : Nat) (l m : List Nat), l.length ≤ n → l.length % k = 0 →
      chunksOf k (l ++ m) = chunksOf k l ++ chunksOf k m := by
  intro n
  induction n with
  | zero =>
    intro l m h _
    have hl : l = [] := List.eq_nil_of_length_eq_zero (Nat.le_zero.mp h)
    subst hl; rfl
  | succ n ih =>
    intro l m h hmod
    rcases eq_or_ne l [] with hl | hl
    · subst hl; rfl
    · have hpos : 0 < l.length := List.length_pos.mpr hl
      have hkle : k ≤ l.length := by
        rcases Nat.dvd_iff_mod_eq_zero.mpr hmod with ⟨q, hq⟩
        rcases q with _ | q
        · omega
        · calc k ≤ k * (q + 1) := Nat.le_mul_of_pos_right k (Nat.succ_pos q)
            _ = l.length := hq.symm
      rcases eq_or_ne m [] with hm | hm
      · subst hm; simp [chunksOf_nil]
      · have hlm : l ++ m ≠ [] := by
          intro hcon
          exact hl (List.append_eq_nil.mp hcon).1
        rw [chunksOf_eq_cons k hk (l ++ m) hlm, chunksOf_eq_cons k hk l hl]
        have htake : (l ++ m).take k = l.take k := by
          rw [List.take_append_eq_append_take, Nat.sub_eq_zero_of_le hkle, List.take_zero,
            List.append_nil]
        have hdrop : (l ++ m).drop k = l.drop k ++ m := by
          rw [List.drop_append_eq_append_drop, Nat.sub_eq_zero_of_le hkle, List.drop_zero]
        rw [htake, hdrop,
          ih (l.drop k) m
            (by simp only [List.length_drop]; omega)
            (by
              simp only [List.length_drop]
              have hdvd : k ∣ l.length := Nat.dvd_iff_mod_eq_zero.mpr hmod
              exact Nat.dvd_iff_mod_eq_zero.mp (Nat.dvd_sub' hdvd (dvd_refl k)))]
        rfl

theorem chunksOf_append (k : Nat) (hk : 0 < k) (l m : List Nat) (hmod : l.length % k = 0) :
    chunksOf k (l ++ m) = chunksOf k l ++ chunksOf k m :=
  chunksOf_append_aux k hk l.length l m (le_refl _) hmod

/-! ## The streaming hash computes the one-shot digest -/

theorem ctxInv_init : ctxInv initCtx [] :=
  ⟨[], rfl, rfl, rfl, rfl⟩

theorem ctxInv_update {c : HashCtx} {msg : List Nat} (hinv : ctxInv c msg)
    (d : List Nat) : ctxInv (updateCtx c d) (msg ++ d) := by
  obtain ⟨p, hmsg, hmod, hhv, htot⟩ := hinv
  refine ⟨p ++ (c.buf ++ d).take (64 * ((c.buf ++ d).length / 64)), ?_, ?_, ?_, ?_⟩
  · show msg ++ d = _ ++ (updateCtx c d).buf
    show msg ++ d = _ ++ (c.buf ++ d).drop (64 * ((c.buf ++ d).length / 64))
    rw [hmsg, List.append_assoc, List.append_assoc, List.take_append_drop]
  · have hle : 64 * ((c.buf ++ d).length / 64) ≤ (c.buf ++ d).length := by
      calc 64 * ((c.buf ++ d).length / 64) = (c.buf ++ d).length / 64 * 64 := Nat.mul_comm _ _
        _ ≤ (c.buf ++ d).length := Nat.div_mul_le_self _ _
    rw [List.length_append, List.length_take, Nat.min_eq_left hle]
    omega
  · show (updateCtx c d).hv = _
    show (chunksOf 64 ((c.buf ++ d).take (64 * ((c.buf ++ d).length / 64)))).foldl compress c.hv = _
    rw [hhv, ← List.foldl_append, ← chunksOf_append 64 (by omega) _ _ hmod]
  · show c.total + d.length = (msg ++ d).length
    rw [htot, List.length_append]

theorem ctxInv_foldl :
    ∀ (chunks : List (List Nat)) (c : HashCtx) (msg : List Nat), ctxInv c msg →
      ctxInv (chunks.foldl updateCtx c) (msg ++ chunks.flatten) := by
  intro chunks
  induction chunks with
  | nil => intro c msg h; simpa using h
  | cons d rest ih =>
    intro c msg h
    have := ih (updateCtx c d) (msg ++ d) (ctxInv_update h d)
    simpa [List.append_assoc] using this

theorem hexdigestCtx_eq_sha256Hex {c : HashCtx} {msg : List Nat} (hinv : ctxInv c msg) :
    hexdigestCtx c = sha256Hex msg := by
  obtain ⟨p, hmsg, hmod, hhv, htot⟩ := hinv
  show digestHex ((chunksOf 64 (c.buf ++ padBytes c.total)).foldl compress c.hv) = _
  rw [hhv, htot, ← List.foldl_append, ← chunksOf_append 64 (by omega) _ _ hmod]
  show digestHex ((chunksOf 64 (p ++ (c.buf ++ padBytes msg.length))).foldl compress shaH0) = _
  rw [← List.append_assoc, ← hmsg]
  rfl

/-- The streamed digest of the whole content, chunked any way at all,
equals the one-shot digest. -/
theorem stream_digest_eq (content : List Nat) :
    hexdigestCtx ((chunksOf 4096 content).foldl updateCtx initCtx) = sha256Hex content := by
  have h := ctxInv_foldl (chunksOf 4096 content) initCtx [] ctxInv_init
  rw [flatten_chunksOf 4096 (by omega) content] at h
  simpa using hexdigestCtx_eq_sha256Hex h

/-- `validate_checksum` is exact-match comparison of the one-shot lowercase
SHA-256 hex digest with the expected string. -/
theorem validate_checksum_eq (content : List Nat) (expected : PyStr) :
    validate_checksum content expected = (sha256Hex content == expected) := by
  show (hexdigestCtx ((chunksOf 4096 content).foldl updateCtx initCtx) == expected) = _
  rw [stream_digest_eq]

/-! ## The digest is lowercase hex -/

theorem hexDigitChars_getD_mem (n : Nat) : hexDigitChars.getD n '0' ∈ hexDigitChars := by
  by_cases h : n < hexDigitChars.length
  · rw [List.getD_eq_getElem hexDigitChars '0' h]
    exact List.getElem_mem h
  · rw [List.getD_eq_default hexDigitChars '0' (Nat.le_of_not_lt h)]
    decide

theorem hexByte_mem {c : Char} {n : Nat} (h : c ∈ hexByte n) : c ∈ hexDigitChars := by
  simp only [hexByte, List.mem_cons, List.not_mem_nil, or_false] at h
  rcases h with h | h
  · exact h ▸ hexDigitChars_getD_mem _
  · exact h ▸ hexDigitChars_getD_mem _

theorem wordHex_mem {c : Char} {w : Nat} (h : c ∈ wordHex w) : c ∈ hexDigitChars := by
  simp only [wordHex, List.mem_append] at h
  rcases h with ((h | h) | h) | h <;> exact hexByte_mem h

theorem digestHex_lower (h : List Nat) :
    (digestHex h).all (fun c => decide (c ∈ hexDigitChars)) = true := by
  rw [List.all_eq_true]
  intro c hc
  simp only [digestHex, List.mem_flatten, List.mem_map] at hc
  obtain ⟨l, ⟨w, _, hwl⟩, hcl⟩ := hc
  exact decide_eq_true_iff.mpr (wordHex_mem (hwl ▸ hcl))

/-! ## Claim C4 -/

set_option maxRecDepth 8192 in
/-- C4: `validate_checksum` returns true exactly when the lowercase
hex-encoded SHA-256 digest of the file's whole contents equals the expected
string under case-sensitive exact equality; the digest alphabet is the
lowercase hex digits, so the uppercase spelling of the correct digest of
the empty file does not verify although the lowercase spelling does; and
the 4096-byte streaming computation agrees with hashing the whole content
at once (the verifier is a pure function of the file bytes and mutates no
state).  The digest is pinned against FIPS-180-4 reference values at the
empty message and at the padding-boundary lengths 56 and 60 (bytes of
`'a'`). -/
theorem validate_checksum_exact_lowercase_stream (content : List Nat) (expected : PyStr) :
    (validate_checksum content expected = true ↔ sha256Hex content = expected) ∧
    hexdigestCtx ((chunksOf 4096 content).foldl updateCtx initCtx) = sha256Hex content ∧
    (sha256Hex content).all (fun c => decide (c ∈ hexDigitChars)) = true ∧
    sha256Hex [] = "e3b0c44298fc1c149afbf4c8996fb92427ae41e4649b934ca495991b7852b855".toList ∧
    sha256Hex (List.replicate 56 97) =
      "b35439a4ac6f0948b6d6f9e3c6af0f5f590ce20f1bde7090ef7970686ec6738a".toList ∧
    sha256Hex (List.replicate 60 97) =
      "11ee391211c6256460b6ed375957fadd8061cafbb31daf967db875aebd5aaad4".toList ∧
    validate_checksum []
      "E3B0C44298FC1C149AFBF4C8996FB92427AE41E4649B934CA495991B7852B855".toList = false ∧
    validate_checksum []
      "e3b0c44298fc1c149afbf4c8996fb92427ae41e4649b934ca495991b7852b855".toList = true := by
  refine ⟨?_, stream_digest_eq content, digestHex_lower _, by decide, by decide, by decide,
    by decide, by decide⟩
  rw [validate_checksum_eq]
  exact beq_iff_eq

/-! ## Claim C5 -/

/-- Counterexample to C5 as stated: a record file that exists but whose
bytes do not decode as text is in particular not valid JSON, yet
`read_record` raises `UnicodeDecodeError` there instead of returning the
empty mapping — while the absent and invalid-JSON-text states do return
the empty mapping as claimed. -/
theorem read_record_raw_counterexample :
    read_record_raw .undecodable = .error .unicodeDecodeError ∧
    read_record_raw .badJson = .ok [] ∧
    read_record_raw .absent = .ok [] :=
  ⟨rfl, rfl, rfl⟩

/-- C5 (amended): `read_record` returns the stored mapping when the record
file exists, decodes as text and parses, and the empty mapping when the
file is absent or its decoded text is not valid JSON; it raises only on
the one remaining state, a file whose bytes do not decode as text
(`UnicodeDecodeError`, not caught by the source's except clause). -/
theorem read_record_decodable_total (rf : RawFile) :
    (rf = .absent → read_record_raw rf = .ok []) ∧
    (rf = .badJson → read_record_raw rf = .ok []) ∧
    (∀ r, rf = .jsonRecord r → read_record_raw rf = .ok r) ∧
    (rf = .undecodable → read_record_raw rf = .error .unicodeDecodeError) ∧
    (rf ≠ .undecodable → ∃ r, read_record_raw rf = .ok r) := by
  refine ⟨fun h => by subst h; rfl, fun h => by subst h; rfl,
    fun r h => by subst h; rfl, fun h => by subst h; rfl, fun h => ?_⟩
  cases rf with
  | absent => exact ⟨[], rfl⟩
  | undecodable => exact absurd rfl h
  | badJson => exact ⟨[], rfl⟩
  | jsonRecord r => exact ⟨r, rfl⟩

/-- Witness for the amended C5 at concrete record-file states. -/
theorem read_record_decodable_total_witness :
    read_record_raw .badJson = .ok [] ∧
    read_record_raw (.jsonRecord [("p".toList, RecEntry.mk "1".toList "t".toList)]) =
      .ok [("p".toList, RecEntry.mk "1".toList "t".toList)] ∧
    read_record_raw .undecodable = .error .unicodeDecodeError :=
  ⟨(read_record_decodable_total .badJson).2.1 rfl,
   (read_record_decodable_total _).2.2.1 _ rfl,
   (read_record_decodable_total .undecodable).2.2.2.1 rfl⟩

/-! ## Record-operation lemmas -/

theorem recordSet_fresh (r : Record) (k : PyStr) (v : RecEntry)
    (h : recordHasKey r k = false) : recordSet r k v = r ++ [(k, v)] := by
  simp [recordSet, h]

theorem recordHasKey_cons (p : PyStr × RecEntry) (rest : Record) (k : PyStr) :
    recordHasKey (p :: rest) k = ((p.1 == k) || recordHasKey rest k) := by
  simp [recordHasKey]

theorem recordGet_cons (p : PyStr × RecEntry) (rest : Record) (k : PyStr) :
    recordGet (p :: rest) k = if p.1 == k then some p.2 else recordGet rest k := by
  simp only [recordGet, List.find?_cons]
  by_cases h : (p.1 == k) = true <;> simp [h]

theorem countKey_cons (p : PyStr × RecEntry) (rest : Record) (k : PyStr) :
    countKey (p :: rest) k = (if p.1 == k then 1 else 0) + countKey rest k := by
  simp only [countKey, List.filter_cons]
  by_cases h : (p.1 == k) = true <;> simp [h, Nat.add_comm]

theorem recordHasKey_append (r s : Record) (k : PyStr) :
    recordHasKey (r ++ s) k = (recordHasKey r k || recordHasKey s k) := by
  simp [recordHasKey]

theorem countKey_append (r s : Record) (k : PyStr) :
    countKey (r ++ s) k = countKey r k + countKey s k := by
  simp [countKey, List.filter_append]

theorem recordHasKey_true_countKey_pos {r : Record} {k : PyStr}
    (h : recordHasKey r k = true) : 0 < countKey r k := by
  induction r with
  | nil => simp [recordHasKey] at h
  | cons p rest ih =>
    rw [recordHasKey_cons] at h
    rw [countKey_cons]
    by_cases hp : (p.1 == k) = true
    · simp [hp]
    · simp only [hp, Bool.false_or] at h
      have := ih h
      omega

theorem recordHasKey_false_countKey_zero {r : Record} {k : PyStr}
    (h : recordHasKey r k = false) : countKey r k = 0 := by
  induction r with
  | nil => rfl
  | cons p rest ih =>
    rw [recordHasKey_cons, Bool.or_eq_false_iff] at h
    rw [countKey_cons, h.1, ih h.2]
    simp

theorem countKey_map_set (r : Record) (k : PyStr) (v : RecEntry) :
    countKey (r.map (fun p => if p.1 == k then (k, v) else p)) k = countKey r k := by
  induction r with
  | nil => rfl
  | cons p rest ih =>
    by_cases h : (p.1 == k) = true
    · simp only [List.map_cons, if_pos h, countKey_cons, ih]
      simp [h]
    · simp only [List.map_cons, if_neg h, countKey_cons, ih]

theorem countKey_recordSet_self (r : Record) (k : PyStr) (v : RecEntry)
    (h : countKey r k ≤ 1) : countKey (recordSet r k v) k = 1 := by
  by_cases hk : recordHasKey r k = true
  · have hpos := recordHasKey_true_countKey_pos hk
    simp only [recordSet, if_pos hk, countKey_map_set]
    omega
  · have hk' : recordHasKey r k = false := by simpa using hk
    have hz := recordHasKey_false_countKey_zero hk'
    rw [recordSet_fresh r k v hk', countKey_append, hz]
    simp [countKey]

theorem recordGet_map_set (r : Record) (k : PyStr) (v : RecEntry) :
    ∀ (h : recordHasKey r k = true),
      recordGet (r.map (fun p => if p.1 == k then (k, v) else p)) k = some v := by
  induction r with
  | nil => intro h; simp [recordHasKey] at h
  | cons p rest ih =>
    intro h
    rw [recordHasKey_cons] at h
    by_cases hp : (p.1 == k) = true
    · simp only [List.map_cons, if_pos hp]
      simp [recordGet_cons]
    · simp only [hp, Bool.false_or] at h
      simp only [List.map_cons, if_neg hp]
      rw [recordGet_cons, if_neg (by simp [hp] : ¬((p.1 == k) = true))]
      exact ih h

theorem recordGet_append_fresh (r : Record) (k : PyStr) (v : RecEntry) :
    ∀ (h : recordHasKey r k = false), recordGet (r ++ [(k, v)]) k = some v := by
  induction r with
  | nil => intro h; simp [recordGet_cons]
  | cons p rest ih =>
    intro h
    rw [recordHasKey_cons, Bool.or_eq_false_iff] at h
    rw [List.cons_append, recordGet_cons, if_neg (by simp [h.1] : ¬((p.1 == k) = true))]
    exact ih h.2

theorem recordGet_recordSet_self (r : Record) (k : PyStr) (v : RecEntry) :
    recordGet (recordSet r k v) k = some v := by
  by_cases hk : recordHasKey r k = true
  · rw [recordSet, if_pos hk]
    exact recordGet_map_set r k v hk
  · have hk' : recordHasKey r k = false := by simpa using hk
    rw [recordSet_fresh r k v hk']
    exact recordGet_append_fresh r k v hk'

theorem recordHasKey_of_recordGet {r : Record} {k : PyStr} {v : RecEntry}
    (h : recordGet r k = some v) : recordHasKey r k = true := by
  induction r with
  | nil => simp [recordGet] at h
  | cons p rest ih =>
    rw [recordGet_cons] at h
    rw [recordHasKey_cons]
    by_cases hp : (p.1 == k) = true
    · simp [hp]
    · rw [if_neg (by simp [hp] : ¬((p.1 == k) = true))] at h
      simp [ih h]

theorem recordHasKey_recordSet_self (r : Record) (k : PyStr) (v : RecEntry) :
    recordHasKey (recordSet r k v) k = true :=
  recordHasKey_of_recordGet (recordGet_recordSet_self r k v)

theorem recordHasKey_map_set_mono (r : Record) (k k' : PyStr) (v : RecEntry)
    (h : recordHasKey r k' = true) :
    recordHasKey (r.map (fun p => if p.1 == k then (k, v) else p)) k' = true := by
  induction r with
  | nil => simp [recordHasKey] at h
  | cons p rest ih =>
    rw [recordHasKey_cons] at h
    simp only [List.map_cons, recordHasKey_cons]
    by_cases hp : (p.1 == k') = true
    · by_cases hpk : (p.1 == k) = true
      · have h1 : p.1 = k' := by simpa using hp
        have h2 : p.1 = k := by simpa using hpk
        rw [if_pos hpk]
        have : ((k, v).1 == k') = true := by simp [← h1, ← h2]
        simp [this]
      · rw [if_neg hpk]
        simp [hp]
    · simp only [hp, Bool.false_or] at h
      have := ih h
      rw [this, Bool.or_true]

theorem recordHasKey_recordSet_mono (r : Record) (k k' : PyStr) (v : RecEntry)
    (h : recordHasKey r k' = true) : recordHasKey (recordSet r k v) k' = true := by
  by_cases hk : recordHasKey r k = true
  · rw [recordSet, if_pos hk]
    exact recordHasKey_map_set_mono r k k' v h
  · have hk' : recordHasKey r k = false := by simpa using hk
    rw [recordSet_fresh r k v hk', recordHasKey_append, h]
    rfl

theorem recordDelete_of_not_hasKey (r : Record) (k : PyStr)
    (h : recordHasKey r k = false) : recordDelete r k = r := by
  simp only [recordHasKey, List.any_eq_false] at h
  rw [recordDelete, List.filter_eq_self]
  intro p hp
  simpa using h p hp

theorem recordHasKey_recordDelete (r : Record) (k : PyStr) :
    recordHasKey (recordDelete r k) k = false := by
  simp only [recordHasKey, recordDelete, List.any_eq_false]
  intro p hp
  have := (List.mem_filter.mp hp).2
  simpa using this

/-! ## State-primitive lemmas -/

theorem mkdirP_packagesFile (st : St) (p : PyPath) :
    (mkdirP st p).packagesFile = st.packagesFile := by
  rw [mkdirP]; split <;> rfl

theorem mkdirP_recordFile (st : St) (p : PyPath) :
    (mkdirP st p).recordFile = st.recordFile := by
  rw [mkdirP]; split <;> rfl

theorem mkdirP_files (st : St) (p : PyPath) :
    (mkdirP st p).files = st.files := by
  rw [mkdirP]; split <;> rfl

theorem mem_mkdirP_self (st : St) (p : PyPath) : p ∈ (mkdirP st p).dirs := by
  rw [mkdirP]; split
  · assumption
  · exact List.mem_cons_self p st.dirs

theorem mem_mkdirP_mono (st : St) (p q : PyPath) (h : q ∈ st.dirs) :
    q ∈ (mkdirP st p).dirs := by
  rw [mkdirP]; split
  · exact h
  · exact List.mem_cons_of_mem p h

theorem writeFile_packagesFile (st : St) (p : PyPath) (c : List Nat) :
    (writeFile st p c).packagesFile = st.packagesFile := rfl

theorem writeFile_recordFile (st : St) (p : PyPath) (c : List Nat) :
    (writeFile st p c).recordFile = st.recordFile := rfl

theorem writeFile_dirs (st : St) (p : PyPath) (c : List Nat) :
    (writeFile st p c).dirs = st.dirs := rfl

theorem readFile_writeFile_self (st : St) (p : PyPath) (c : List Nat) :
    readFile (writeFile st p c) p = some c := by
  simp [readFile, writeFile, List.find?_cons]

/-! ## Unfolding lemmas for `installCore` -/

/-- A successful single install from the manifest lookup onward: the
outcome is `ok`, the install directory is created, the artifact is written,
and the record entry is set under the caller-supplied name. -/
theorem installCore_good (env : Env) (pkgs : List Package) (name : PyStr) (pkg : Package)
    (st : St) (url sha : PyStr) (content : List Nat)
    (hfind : lookupPackage pkgs name = some pkg)
    (hos : env.platformName ∈ pkg.os)
    (hurl : lookupAssoc pkg.url env.platformName = some url)
    (hsha : lookupAssoc pkg.sha256 env.platformName = some sha)
    (hnet : env.net url = some content)
    (hsum : sha256Hex content = sha) :
    installCore env pkgs name true st =
      (.ok,
        { writeFile (mkdirP st (get_installation_path env.platformName name))
            (downloadPath env.platformName name url) content with
          recordFile := .stored (recordSet (read_record st.recordFile) name
            (RecEntry.mk pkg.version env.now)) }) := by
  have hval : validate_checksum content sha = true := by
    rw [validate_checksum_eq, hsum]
    exact beq_self_eq_true sha
  have hmem : get_installation_path env.platformName name ∈
      (writeFile (mkdirP st (get_installation_path env.platformName name))
        (downloadPath env.platformName name url) content).dirs := by
    rw [writeFile_dirs]
    exact mem_mkdirP_self st _
  simp only [installCore, hfind, if_pos hos, Bool.not_true, Bool.false_and, Bool.false_eq_true,
    if_false, hurl, hsha, hnet, hval, if_true, if_pos hmem, writeFile_recordFile,
    mkdirP_recordFile]

/-- A single install that fails integrity verification: the outcome is the
integrity `handle_error`, the artifact file has been written and stays on
disk, and the record file is untouched. -/
theorem installCore_bad (env : Env) (pkgs : List Package) (name : PyStr) (pkg : Package)
    (st : St) (url sha : PyStr) (content : List Nat)
    (hfind : lookupPackage pkgs name = some pkg)
    (hos : env.platformName ∈ pkg.os)
    (hurl : lookupAssoc pkg.url env.platformName = some url)
    (hsha : lookupAssoc pkg.sha256 env.platformName = some sha)
    (hnet : env.net url = some content)
    (hsum : sha256Hex content ≠ sha) :
    installCore env pkgs name true st =
      (.error .integrity,
        writeFile (mkdirP st (get_installation_path env.platformName name))
          (downloadPath env.platformName name url) content) := by
  have hval : validate_checksum content sha = false := by
    rw [validate_checksum_eq]
    exact beq_eq_false_iff_ne.mpr hsum
  simp only [installCore, hfind, if_pos hos, Bool.not_true, Bool.false_and, Bool.false_eq_true,
    if_false, hurl, hsha, hnet, hval, Bool.false_eq_true, if_false]

/-- The platform gate: an unsupported platform aborts before any state
change, whether or not confirmation is skipped. -/
theorem installCore_unsupported (env : Env) (pkgs : List Package) (name : PyStr)
    (pkg : Package) (st : St) (skip : Bool)
    (hfind : lookupPackage pkgs name = some pkg)
    (hos : env.platformName ∉ pkg.os) :
    installCore env pkgs name skip st = (.error .unsupportedPlatform, st) := by
  simp only [installCore, hfind, if_neg hos]

/-- A non-affirmative prompt answer cancels the install cleanly with no
state change. -/
theorem installCore_cancelled (env : Env) (pkgs : List Package) (name : PyStr)
    (pkg : Package) (st : St)
    (hfind : lookupPackage pkgs name = some pkg)
    (hos : env.platformName ∈ pkg.os)
    (hans : confirmAffirmative env.answer = false) :
    installCore env pkgs name false st = (.cancelled, st) := by
  simp only [installCore, hfind, if_pos hos, Bool.not_false, Bool.true_and, hans,
    Bool.not_false, if_true]

/-! ## Unfolding lemmas for `install_package` and `installSingle` -/

theorem installSingle_eq_installCore (env : Env) (name : PyStr) (skip : Bool) (st : St)
    (pkgs : List Package) (hm : st.packagesFile = .stored pkgs) :
    installSingle env name skip st = installCore env pkgs name skip st := by
  simp only [installSingle, ensure_packages_file, loadPackages, hm]

theorem install_package_eq_installCore (env : Env) (name : PyStr) (skip : Bool) (st : St)
    (pkgs : List Package) (hm : st.packagesFile = .stored pkgs)
    (hstar : name ≠ "*".toList) :
    install_package env name skip st = installCore env pkgs name skip st := by
  simp only [install_package, ensure_packages_file, loadPackages, hm, if_neg hstar]

theorem install_package_star (env : Env) (skip : Bool) (st : St)
    (pkgs : List Package) (hm : st.packagesFile = .stored pkgs) :
    install_package env "*".toList skip st =
      installList env skip (pkgs.map (fun p => p.name)) st := by
  simp only [install_package, ensure_packages_file, loadPackages, hm, if_pos]

/-! ## Claim C2 -/

/-- C2: when the current platform is not in the package's `os` set, install
aborts with the unsupported-platform error and the state is completely
unchanged: no install directory, no artifact, no record entry, and exit
code 1.  (`name ≠ "*"` excludes the wildcard spelling, which is not a
package lookup.) -/
theorem install_unsupported_platform_no_change (env : Env) (st : St)
    (pkgs : List Package) (pkg : Package) (name : PyStr) (skip : Bool)
    (hm : st.packagesFile = .stored pkgs)
    (hstar : name ≠ "*".toList)
    (hfind : lookupPackage pkgs name = some pkg)
    (hos : env.platformName ∉ pkg.os) :
    install_package env name skip st = (.error .unsupportedPlatform, st) ∧
    exitCode (install_package env name skip st).1 = 1 := by
  rw [install_package_eq_installCore env name skip st pkgs hm hstar,
    installCore_unsupported env pkgs name pkg st skip hfind hos]
  exact ⟨rfl, rfl⟩

/-- Witness for C2: the Linux-only fixture package under a Windows platform. -/
theorem install_unsupported_platform_no_change_witness :
    install_package { wEnv with platformName := "Windows".toList } "Foo".toList true
        (wSt [wPkg]) =
      (.error .unsupportedPlatform, wSt [wPkg]) :=
  (install_unsupported_platform_no_change { wEnv with platformName := "Windows".toList }
    (wSt [wPkg]) [wPkg] wPkg "Foo".toList true rfl (by decide) rfl (by decide)).1

/-! ## Claim C1 -/

/-- C1: when the downloaded artifact's digest differs from the manifest's
expected hash for the current platform, install aborts with the integrity
error (exit code 1), the artifact file is still on disk afterwards, the
record file is never written, and in particular a package with no record
entry beforehand has none afterwards. -/
theorem install_checksum_mismatch_aborts (env : Env) (st : St) (pkgs : List Package)
    (pkg : Package) (name url sha : PyStr) (content : List Nat)
    (hm : st.packagesFile = .stored pkgs)
    (hstar : name ≠ "*".toList)
    (hfind : lookupPackage pkgs name = some pkg)
    (hos : env.platformName ∈ pkg.os)
    (hurl : lookupAssoc pkg.url env.platformName = some url)
    (hsha : lookupAssoc pkg.sha256 env.platformName = some sha)
    (hnet : env.net url = some content)
    (hmismatch : sha256Hex content ≠ sha) :
    (install_package env name true st).1 = .error .integrity ∧
    exitCode (install_package env name true st).1 = 1 ∧
    readFile (install_package env name true st).2
      (downloadPath env.platformName name url) = some content ∧
    (install_package env name true st).2.recordFile = st.recordFile ∧
    (recordHasKey (read_record st.recordFile) name = false →
      recordHasKey (read_record (install_package env name true st).2.recordFile) name
        = false) := by
  rw [install_package_eq_installCore env name true st pkgs hm hstar,
    installCore_bad env pkgs name pkg st url sha content hfind hos hurl hsha hnet hmismatch]
  refine ⟨rfl, rfl, readFile_writeFile_self _ _ _, ?_, ?_⟩
  · show (writeFile _ _ _).recordFile = _
    rw [writeFile_recordFile, mkdirP_recordFile]
  · intro h
    show recordHasKey (read_record (writeFile _ _ _).recordFile) name = false
    rw [writeFile_recordFile, mkdirP_recordFile]
    exact h

/-! ## Claim C8 -/

/-- C8: when confirmation is not skipped and the prompt answer is anything
but an affirmative `y` (case-insensitively, after stripping surrounding
whitespace), both install and uninstall return cleanly with the state
completely unchanged; the cancellation exit code is 0, while every
`handle_error` path exits 1. -/
theorem prompt_cancellation_clean (env : Env) (st : St) (pkgs : List Package)
    (pkg : Package) (name : PyStr)
    (hm : st.packagesFile = .stored pkgs)
    (hstar : name ≠ "*".toList)
    (hfind : lookupPackage pkgs name = some pkg)
    (hos : env.platformName ∈ pkg.os)
    (hans : pyLower (pyStrip env.answer) ≠ "y".toList) :
    install_package env name false st = (.cancelled, st) ∧
    (get_installation_path env.platformName name ∈ st.dirs →
      uninstall_package env name false st = (.cancelled, st)) ∧
    exitCode .cancelled = 0 ∧
    (∀ e, exitCode (.error e) = 1) := by
  have hans' : confirmAffirmative env.answer = false := by
    rw [confirmAffirmative]
    exact beq_eq_false_iff_ne.mpr hans
  refine ⟨?_, ?_, rfl, fun e => rfl⟩
  · rw [install_package_eq_installCore env name false st pkgs hm hstar]
    exact installCore_cancelled env pkgs name pkg st hfind hos hans'
  · intro hdir
    simp only [uninstall_package, if_pos hdir, hans', Bool.not_false, Bool.true_and, if_true]

/-! ## A successful install, packaged for chaining -/

/-- Running a successful single install: outcome `ok`, manifest cache
untouched, record entry set under the caller-supplied spelling, install
directory present, previously existing directories still present. -/
theorem install_good_next (env : Env) (name : PyStr) (pkg : Package) (st : St)
    (pkgs : List Package) (url sha : PyStr) (content : List Nat)
    (hm : st.packagesFile = .stored pkgs)
    (hstar : name ≠ "*".toList)
    (hfind : lookupPackage pkgs name = some pkg)
    (hos : env.platformName ∈ pkg.os)
    (hurl : lookupAssoc pkg.url env.platformName = some url)
    (hsha : lookupAssoc pkg.sha256 env.platformName = some sha)
    (hnet : env.net url = some content)
    (hsum : sha256Hex content = sha) :
    ∃ st', install_package env name true st = (.ok, st') ∧
      st'.packagesFile = st.packagesFile ∧
      read_record st'.recordFile =
        recordSet (read_record st.recordFile) name (RecEntry.mk pkg.version env.now) ∧
      get_installation_path env.platformName name ∈ st'.dirs ∧
      ∀ d ∈ st.dirs, d ∈ st'.dirs := by
  have hrun : install_package env name true st =
      (.ok, St.mk
        (mkdirP st (get_installation_path env.platformName name)).packagesFile
        (.stored (recordSet (read_record st.recordFile) name
          (RecEntry.mk pkg.version env.now)))
        (mkdirP st (get_installation_path env.platformName name)).dirs
        ((downloadPath env.platformName name url, content) ::
          (mkdirP st (get_installation_path env.platformName name)).files.filter
            (fun q => !(q.1 == downloadPath env.platformName name url)))) := by
    rw [install_package_eq_installCore env name true st pkgs hm hstar]
    exact installCore_good env pkgs name pkg st url sha content hfind hos hurl hsha hnet hsum
  refine ⟨_, hrun, ?_, ?_, ?_, ?_⟩
  · show (mkdirP st (get_installation_path env.platformName name)).packagesFile =
      st.packagesFile
    exact mkdirP_packagesFile st _
  · rfl
  · show get_installation_path env.platformName name ∈
      (mkdirP st (get_installation_path env.platformName name)).dirs
    exact mem_mkdirP_self st _
  · intro d hd
    show d ∈ (mkdirP st (get_installation_path env.platformName name)).dirs
    exact mem_mkdirP_mono st _ d hd

/-! ## Claim C7 -/

/-- C7: installing the same package name twice, both installs succeeding,
leaves exactly one record entry for that name; its version is the
manifest's version and its `installed_on` timestamp is the one of the
second run (overwrite, not duplication).  The `countKey _ _ ≤ 1`
hypothesis is the record invariant of a parsed JSON object: a key occurs
at most once. -/
theorem install_twice_single_entry (env : Env) (t1 t2 : PyStr) (st : St)
    (pkgs : List Package) (pkg : Package) (name url sha : PyStr) (content : List Nat)
    (hm : st.packagesFile = .stored pkgs)
    (hstar : name ≠ "*".toList)
    (hfind : lookupPackage pkgs name = some pkg)
    (hos : env.platformName ∈ pkg.os)
    (hurl : lookupAssoc pkg.url env.platformName = some url)
    (hsha : lookupAssoc pkg.sha256 env.platformName = some sha)
    (hnet : env.net url = some content)
    (hsum : sha256Hex content = sha)
    (hcnt : countKey (read_record st.recordFile) name ≤ 1) :
    ∃ st1 st2,
      install_package { env with now := t1 } name true st = (.ok, st1) ∧
      install_package { env with now := t2 } name true st1 = (.ok, st2) ∧
      countKey (read_record st2.recordFile) name = 1 ∧
      recordGet (read_record st2.recordFile) name = some (RecEntry.mk pkg.version t2) := by
  obtain ⟨st1, e1, hm1, hrec1, _, _⟩ :=
    install_good_next { env with now := t1 } name pkg st pkgs url sha content hm hstar
      hfind hos hurl hsha hnet hsum
  obtain ⟨st2, e2, hm2, hrec2, _, _⟩ :=
    install_good_next { env with now := t2 } name pkg st1 pkgs url sha content
      (hm1.trans hm) hstar hfind hos hurl hsha hnet hsum
  refine ⟨st1, st2, e1, e2, ?_, ?_⟩
  · rw [hrec2, hrec1]
    exact countKey_recordSet_self _ name _
      (le_of_eq (countKey_recordSet_self _ name _ hcnt))
  · rw [hrec2]
    exact recordGet_recordSet_self _ name _

/-! ## Claim C9 -/

theorem get_installation_path_ne (platform n1 n2 : PyStr) (h : n1 ≠ n2) :
    get_installation_path platform n1 ≠ get_installation_path platform n2 := by
  intro hc
  rw [get_installation_path, get_installation_path] at hc
  by_cases hp : platform = "Windows".toList
  · rw [if_pos hp, if_pos hp] at hc
    simp only [winRoot, List.cons_append, List.nil_append, List.cons.injEq, true_and,
      and_true] at hc
    exact h hc
  · rw [if_neg hp, if_neg hp] at hc
    simp only [macRoot, List.cons_append, List.nil_append, List.cons.injEq, true_and,
      and_true] at hc
    exact h hc

/-- C9: the manifest lookup is case-insensitive, but the install directory
and the record key come from the caller-supplied spelling: two successful
installs of the same manifest package under spellings differing only in
letter case produce two distinct install directories (both present
afterwards) and two distinct record entries. -/
theorem install_case_spelling_distinct (env : Env) (st : St) (pkgs : List Package)
    (pkg : Package) (n1 n2 url sha : PyStr) (content : List Nat)
    (hm : st.packagesFile = .stored pkgs)
    (hstar1 : n1 ≠ "*".toList)
    (hstar2 : n2 ≠ "*".toList)
    (hfind1 : lookupPackage pkgs n1 = some pkg)
    (hfind2 : lookupPackage pkgs n2 = some pkg)
    (hcase : pyLower n1 = pyLower n2)
    (hne : n1 ≠ n2)
    (hos : env.platformName ∈ pkg.os)
    (hurl : lookupAssoc pkg.url env.platformName = some url)
    (hsha : lookupAssoc pkg.sha256 env.platformName = some sha)
    (hnet : env.net url = some content)
    (hsum : sha256Hex content = sha) :
    ∃ st1 st2,
      install_package env n1 true st = (.ok, st1) ∧
      install_package env n2 true st1 = (.ok, st2) ∧
      get_installation_path env.platformName n1 ≠ get_installation_path env.platformName n2 ∧
      get_installation_path env.platformName n1 ∈ st2.dirs ∧
      get_installation_path env.platformName n2 ∈ st2.dirs ∧
      recordHasKey (read_record st2.recordFile) n1 = true ∧
      recordHasKey (read_record st2.recordFile) n2 = true := by
  obtain ⟨st1, e1, hm1, hrec1, hd1, _⟩ :=
    install_good_next env n1 pkg st pkgs url sha content hm hstar1 hfind1 hos hurl hsha
      hnet hsum
  obtain ⟨st2, e2, hm2, hrec2, hd2, hmono2⟩ :=
    install_good_next env n2 pkg st1 pkgs url sha content (hm1.trans hm) hstar2 hfind2
      hos hurl hsha hnet hsum
  refine ⟨st1, st2, e1, e2, get_installation_path_ne _ n1 n2 hne,
    hmono2 _ hd1, hd2, ?_, ?_⟩
  · rw [hrec2]
    apply recordHasKey_recordSet_mono
    rw [hrec1]
    exact recordHasKey_recordSet_self _ n1 _
  · rw [hrec2]
    exact recordHasKey_recordSet_self _ n2 _

/-! ## Claim C6 -/

theorem removeTree_recordFile (st : St) (p : PyPath) :
    (removeTree st p).recordFile = st.recordFile := rfl

theorem removeTree_packagesFile (st : St) (p : PyPath) :
    (removeTree st p).packagesFile = st.packagesFile := rfl

theorem not_mem_removeTree_self (st : St) (p : PyPath) : p ∉ (removeTree st p).dirs := by
  intro h
  have h2 := (List.mem_filter.mp h).2
  have : p.isPrefixOf p = true := List.isPrefixOf_iff_prefix.mpr (List.prefix_refl p)
  rw [this] at h2
  simp at h2

/-- C6: uninstalling a package whose install directory is absent aborts
with the not-found error, exit code 1 and the state (in particular any
pre-existing record entry) completely unchanged; when the directory exists
and the uninstall is confirmed (or confirmation skipped), the directory is
recursively deleted, the record entry for the name is deleted if present,
and a missing record entry is not an error: the outcome is `ok` either
way. -/
theorem uninstall_gate_and_removal (env : Env) (name : PyStr) (skip : Bool) (st : St) :
    (get_installation_path env.platformName name ∉ st.dirs →
      uninstall_package env name skip st = (.error .notFound, st) ∧
      exitCode (uninstall_package env name skip st).1 = 1) ∧
    (get_installation_path env.platformName name ∈ st.dirs →
      (skip = true ∨ confirmAffirmative env.answer = true) →
      (uninstall_package env name skip st).1 = .ok ∧
      get_installation_path env.platformName name ∉
        (uninstall_package env name skip st).2.dirs ∧
      read_record (uninstall_package env name skip st).2.recordFile =
        recordDelete (read_record st.recordFile) name ∧
      recordHasKey (read_record (uninstall_package env name skip st).2.recordFile) name
        = false) := by
  constructor
  · intro h
    have he : uninstall_package env name skip st = (.error .notFound, st) := by
      simp only [uninstall_package, if_neg h]
    exact ⟨he, by rw [he]; rfl⟩
  · intro hdir hconf
    have hcond : (!skip && !confirmAffirmative env.answer) = false := by
      rcases hconf with rfl | hc
      · rfl
      · rw [hc]; simp
    by_cases hk : recordHasKey (read_record st.recordFile) name = true
    · have he : uninstall_package env name skip st =
          (.ok, St.mk
            (removeTree st (get_installation_path env.platformName name)).packagesFile
            (.stored (recordDelete (read_record st.recordFile) name))
            (removeTree st (get_installation_path env.platformName name)).dirs
            (removeTree st (get_installation_path env.platformName name)).files) := by
        simp only [uninstall_package, if_pos hdir, hcond, Bool.false_eq_true, if_false,
          removeTree_recordFile, hk, if_true]
      rw [he]
      refine ⟨rfl, ?_, rfl, recordHasKey_recordDelete _ name⟩
      show get_installation_path env.platformName name ∉
        (removeTree st (get_installation_path env.platformName name)).dirs
      exact not_mem_removeTree_self st _
    · have hk' : recordHasKey (read_record st.recordFile) name = false := by simpa using hk
      have he : uninstall_package env name skip st =
          (.ok, removeTree st (get_installation_path env.platformName name)) := by
        simp only [uninstall_package, if_pos hdir, hcond, Bool.false_eq_true, if_false,
          removeTree_recordFile, hk', if_false]
      rw [he]
      refine ⟨rfl, not_mem_removeTree_self st _, ?_, ?_⟩
      · show read_record st.recordFile = _
        exact (recordDelete_of_not_hasKey _ name hk').symm
      · show recordHasKey (read_record st.recordFile) name = false
        exact hk'

/-- Witness for C6, second branch: removing the fixture package after a
(simulated) install directory exists; and first branch: a name with no
directory. -/
theorem uninstall_gate_and_removal_witness :
    uninstall_package wEnv "Gone".toList true (wSt [wPkg]) =
      (.error .notFound, wSt [wPkg]) ∧
    (uninstall_package wEnv "Foo".toList true
      { wSt [wPkg] with dirs := [get_installation_path "Linux".toList "Foo".toList] }).1
      = .ok :=
  ⟨((uninstall_gate_and_removal wEnv "Gone".toList true (wSt [wPkg])).1 (by decide)).1,
   ((uninstall_gate_and_removal wEnv "Foo".toList true
      { wSt [wPkg] with dirs := [get_installation_path "Linux".toList "Foo".toList] }).2
      (by decide) (Or.inl rfl)).1⟩

/-! ## Claim C10 -/

theorem pySplit_ne_nil (sep : Char) (l : PyStr) : pySplit sep l ≠ [] := by
  induction l with
  | nil => simp [pySplit]
  | cons c rest ih =>
    by_cases h : c = sep
    · simp [pySplit, h]
    · simp only [pySplit, if_neg h]
      rcases hr : pySplit sep rest with _ | ⟨h0, t0⟩
      · exact absurd hr ih
      · simp

theorem pySplit_append_sep (sep : Char) :
    ∀ (x y : PyStr), pySplit sep (x ++ sep :: y) = pySplit sep x ++ pySplit sep y := by
  intro x
  induction x with
  | nil => intro y; simp [pySplit]
  | cons c rest ih =>
    intro y
    by_cases h : c = sep
    · simp only [List.cons_append, pySplit, if_pos h, List.append_eq, ih, List.nil_append]
    · rcases hr : pySplit sep rest with _ | ⟨h0, t0⟩
      · exact absurd hr (pySplit_ne_nil sep rest)
      · simp only [List.cons_append, pySplit, if_neg h, List.append_eq, ih, hr,
          List.cons_append]

theorem pySplit_not_mem (sep : Char) (l : PyStr) (h : sep ∉ l) : pySplit sep l = [l] := by
  induction l with
  | nil => rfl
  | cons c rest ih =>
    have hc : c ≠ sep := fun hcc => h (hcc ▸ List.mem_cons_self c rest)
    have hrest : sep ∉ rest := fun hr => h (List.mem_cons_of_mem c hr)
    simp only [pySplit, if_neg hc, ih hrest]

theorem extOf_char_spec (a b : PyStr) (hb : '.' ∉ b) : extOf (a ++ '.' :: b) = b := by
  rw [extOf, pySplit_append_sep, pySplit_not_mem '.' b hb]
  exact List.getLastD_concat _ _ _

/-- C10: the artifact filename is `<package_name>.<ext>` where `<ext>` is
everything after the last `'.'` anywhere in the URL (`url.split('.')[-1]`);
when the URL's last dot is in the hostname, `<ext>` keeps the `/`
separators, so the download path gains extra directory components (here
two components, `tool.com` and `pkg`, instead of one artifact filename). -/
theorem artifact_name_from_last_dot (pname a b : PyStr) (hb : '.' ∉ b) :
    extOf (a ++ '.' :: b) = b ∧
    artifactName pname (a ++ '.' :: b) = pname ++ '.' :: b ∧
    extOf "https://cdn.example.com/pkg".toList = "com/pkg".toList ∧
    downloadPath "Linux".toList "tool".toList "https://cdn.example.com/pkg".toList =
      get_installation_path "Linux".toList "tool".toList ++
        ["tool.com".toList, "pkg".toList] ∧
    downloadPath "Linux".toList "tool".toList "http://cdn.example.com/pkg.zip".toList =
      get_installation_path "Linux".toList "tool".toList ++ ["tool.zip".toList] := by
  refine ⟨extOf_char_spec a b hb, ?_, by decide, by decide, by decide⟩
  rw [artifactName, extOf_char_spec a b hb]

/-- Witness for C10 at a concrete URL split. -/
theorem artifact_name_from_last_dot_witness :
    extOf ("https://h".toList ++ '.' :: "example/file".toList) = "example/file".toList :=
  (artifact_name_from_last_dot "tool".toList "https://h".toList "example/file".toList
    (by decide)).1

/-! ## Claim C3: wildcard install machinery -/

/-- With case-insensitively unique manifest names, looking a package up by
its own name finds that package. -/
theorem lookupPackage_self_of_nodup (pkgs : List Package)
    (hnd : (pkgs.map (fun p => pyLower p.name)).Nodup) :
    ∀ p ∈ pkgs, lookupPackage pkgs p.name = some p := by
  induction pkgs with
  | nil => intro p hp; simp at hp
  | cons q rest ih =>
    rw [List.map_cons, List.nodup_cons] at hnd
    intro p hp
    rcases List.mem_cons.mp hp with rfl | hp2
    · rw [lookupPackage, List.find?_cons_of_pos _ (by simp)]
    · have hq : (pyLower q.name == pyLower p.name) = false := by
        rw [beq_eq_false_iff_ne]
        intro hcc
        exact hnd.1 (hcc ▸ List.mem_map.mpr ⟨p, hp2, rfl⟩)
      rw [lookupPackage, List.find?_cons_of_neg _ (by simp [hq])]
      exact ih hnd.2 p hp2

/-- One successful install inside the wildcard loop. -/
theorem installSingle_good_next (env : Env) (name : PyStr) (pkg : Package) (st : St)
    (pkgs : List Package) (url sha : PyStr) (content : List Nat)
    (hm : st.packagesFile = .stored pkgs)
    (hfind : lookupPackage pkgs name = some pkg)
    (hos : env.platformName ∈ pkg.os)
    (hurl : lookupAssoc pkg.url env.platformName = some url)
    (hsha : lookupAssoc pkg.sha256 env.platformName = some sha)
    (hnet : env.net url = some content)
    (hsum : sha256Hex content = sha) :
    ∃ st', installSingle env name true st = (.ok, st') ∧
      st'.packagesFile = st.packagesFile ∧
      read_record st'.recordFile =
        recordSet (read_record st.recordFile) name (RecEntry.mk pkg.version env.now) := by
  have hrun : installSingle env name true st =
      (.ok, St.mk
        (mkdirP st (get_installation_path env.platformName name)).packagesFile
        (.stored (recordSet (read_record st.recordFile) name
          (RecEntry.mk pkg.version env.now)))
        (mkdirP st (get_installation_path env.platformName name)).dirs
        ((downloadPath env.platformName name url, content) ::
          (mkdirP st (get_installation_path env.platformName name)).files.filter
            (fun q => !(q.1 == downloadPath env.platformName name url)))) := by
    rw [installSingle_eq_installCore env name true st pkgs hm]
    exact installCore_good env pkgs name pkg st url sha content hfind hos hurl hsha hnet hsum
  refine ⟨_, hrun, ?_, rfl⟩
  show (mkdirP st (get_installation_path env.platformName name)).packagesFile =
    st.packagesFile
  exact mkdirP_packagesFile st _

/-- One checksum-failing install inside the wildcard loop. -/
theorem installSingle_bad_next (env : Env) (name : PyStr) (pkg : Package) (st : St)
    (pkgs : List Package) (url sha : PyStr) (content : List Nat)
    (hm : st.packagesFile = .stored pkgs)
    (hfind : lookupPackage pkgs name = some pkg)
    (hos : env.platformName ∈ pkg.os)
    (hurl : lookupAssoc pkg.url env.platformName = some url)
    (hsha : lookupAssoc pkg.sha256 env.platformName = some sha)
    (hnet : env.net url = some content)
    (hsum : sha256Hex content ≠ sha) :
    ∃ st', installSingle env name true st = (.error .integrity, st') ∧
      st'.packagesFile = st.packagesFile ∧
      st'.recordFile = st.recordFile := by
  have hrun : installSingle env name true st =
      (.error .integrity,
        writeFile (mkdirP st (get_installation_path env.platformName name))
          (downloadPath env.platformName name url) content) := by
    rw [installSingle_eq_installCore env name true st pkgs hm]
    exact installCore_bad env pkgs name pkg st url sha content hfind hos hurl hsha hnet hsum
  refine ⟨_, hrun, ?_, ?_⟩
  · rw [writeFile_packagesFile, mkdirP_packagesFile]
  · rw [writeFile_recordFile, mkdirP_recordFile]

/-- A wildcard segment in which every package installs successfully:
record entries are appended in manifest order. -/
theorem installList_all_good (env : Env) (pkgs : List Package) :
    ∀ (sub : List Package) (st : St),
      st.packagesFile = .stored pkgs →
      (∀ p ∈ sub, lookupPackage pkgs p.name = some p) →
      (∀ p ∈ sub, goodInstall env p) →
      (∀ p ∈ sub, recordHasKey (read_record st.recordFile) p.name = false) →
      (sub.map (fun p => p.name)).Nodup →
      ∃ st', installList env true (sub.map (fun p => p.name)) st = (.ok, st') ∧
        st'.packagesFile = .stored pkgs ∧
        read_record st'.recordFile =
          read_record st.recordFile ++
            sub.map (fun p => (p.name, RecEntry.mk p.version env.now)) := by
  intro sub
  induction sub with
  | nil =>
    intro st hm _ _ _ _
    exact ⟨st, rfl, hm, by simp⟩
  | cons p rest ih =>
    intro st hm hlk hgood hfresh hnd
    rw [List.map_cons, List.nodup_cons] at hnd
    obtain ⟨hosp, url, sha, content, hurl, hsha, hnet, hsum⟩ :=
      hgood p (List.mem_cons_self p rest)
    obtain ⟨st1, e1, hm1, hrec1⟩ :=
      installSingle_good_next env p.name p st pkgs url sha content hm
        (hlk p (List.mem_cons_self p rest)) hosp hurl hsha hnet hsum
    have hrec1' : read_record st1.recordFile =
        read_record st.recordFile ++ [(p.name, RecEntry.mk p.version env.now)] := by
      rw [hrec1, recordSet_fresh _ _ _ (hfresh p (List.mem_cons_self p rest))]
    have hfresh1 : ∀ q ∈ rest, recordHasKey (read_record st1.recordFile) q.name = false := by
      intro q hq
      rw [hrec1', recordHasKey_append,
        hfresh q (List.mem_cons_of_mem p hq), Bool.false_or]
      have hne : p.name ≠ q.name := fun hcc => hnd.1 (hcc ▸ List.mem_map.mpr ⟨q, hq, rfl⟩)
      simp only [recordHasKey, List.any_cons, List.any_nil, Bool.or_false]
      exact beq_eq_false_iff_ne.mpr hne
    obtain ⟨st2, e2, hm2, hrec2⟩ := ih st1 (hm1.trans hm)
      (fun q hq => hlk q (List.mem_cons_of_mem p hq))
      (fun q hq => hgood q (List.mem_cons_of_mem p hq))
      hfresh1 hnd.2
    have estep : installList env true ((p :: rest).map (fun q => q.name)) st =
        installList env true (rest.map (fun q => q.name)) st1 := by
      rw [List.map_cons]
      simp only [installList, e1]
    refine ⟨st2, by rw [estep]; exact e2, hm2, ?_⟩
    rw [hrec2, hrec1', List.map_cons, List.append_assoc, List.singleton_append]

/-- A leading wildcard segment that ends in `ok` continues with the rest of
the names from the reached state. -/
theorem installList_append_ok (env : Env) (skip : Bool) :
    ∀ (xs : List PyStr) (st st1 : St) (ys : List PyStr),
      installList env skip xs st = (.ok, st1) →
      installList env skip (xs ++ ys) st = installList env skip ys st1 := by
  intro xs
  induction xs with
  | nil =>
    intro st st1 ys h
    have h2 : st = st1 := by
      have := congrArg Prod.snd h
      simpa using this
    rw [List.nil_append, h2]
  | cons x xs ih =>
    intro st st1 ys h
    rw [List.cons_append]
    simp only [installList] at h ⊢
    rcases hx : installSingle env x skip st with ⟨out, stx⟩
    rw [hx] at h
    cases out with
    | ok => exact ih stx st1 ys h
    | cancelled => exact ih stx st1 ys h
    | error e1 =>
      have hcon := congrArg Prod.fst h
      simp at hcon

/-- C3: wildcard install processes the manifest sequentially in manifest
order; when every package verifies, the run succeeds and the record holds
exactly one entry per package, in manifest order; when the k-th package
fails integrity verification, the batch stops with the integrity error
(exit code 1) and the record holds entries for packages 1..k-1 only, the
later packages being unprocessed.  The `Nodup` hypothesis is the
documented manifest invariant (names unique as case-insensitive keys);
packages literally named `"*"` are excluded because the source would
re-expand such a name into the wildcard loop forever. -/
theorem install_wildcard_fail_fast (env : Env) (st : St) (pkgs : List Package)
    (hm : st.packagesFile = .stored pkgs)
    (hrec : read_record st.recordFile = [])
    (hlow : (pkgs.map (fun p => pyLower p.name)).Nodup)
    (hnostar : ∀ p ∈ pkgs, p.name ≠ "*".toList) :
    ((∀ p ∈ pkgs, goodInstall env p) →
      (install_package env "*".toList true st).1 = .ok ∧
      read_record (install_package env "*".toList true st).2.recordFile =
        pkgs.map (fun p => (p.name, RecEntry.mk p.version env.now)) ∧
      (read_record (install_package env "*".toList true st).2.recordFile).length =
        pkgs.length) ∧
    (∀ pre bad post, pkgs = pre ++ bad :: post →
      (∀ p ∈ pre, goodInstall env p) →
      badInstall env bad →
      (install_package env "*".toList true st).1 = .error .integrity ∧
      exitCode (install_package env "*".toList true st).1 = 1 ∧
      read_record (install_package env "*".toList true st).2.recordFile =
        pre.map (fun p => (p.name, RecEntry.mk p.version env.now))) := by
  have hlk := lookupPackage_self_of_nodup pkgs hlow
  have hmap : pkgs.map (fun p => pyLower p.name) =
      (pkgs.map (fun p => p.name)).map pyLower := by
    rw [List.map_map]
    rfl
  have hnames : (pkgs.map (fun p => p.name)).Nodup := by
    rw [hmap] at hlow
    exact hlow.of_map
  rw [install_package_star env true st pkgs hm]
  constructor
  · intro hgood
    obtain ⟨st', e, hm', hrec'⟩ := installList_all_good env pkgs pkgs st hm hlk hgood
      (fun p _ => by rw [hrec]; rfl) hnames
    rw [e]
    refine ⟨rfl, ?_, ?_⟩
    · show read_record st'.recordFile = _
      rw [hrec', hrec, List.nil_append]
    · show (read_record st'.recordFile).length = _
      rw [hrec', hrec, List.nil_append, List.length_map]
  · intro pre bad post hsplit hgoodpre hbad
    subst hsplit
    obtain ⟨hosb, url, sha, content, hurl, hsha, hnet, hsum⟩ := hbad
    obtain ⟨st1, e1, hm1, hrec1⟩ := installList_all_good env (pre ++ bad :: post) pre st hm
      (fun p hp => hlk p (List.mem_append.mpr (Or.inl hp)))
      hgoodpre
      (fun p _ => by rw [hrec]; rfl)
      (by
        rw [List.map_append] at hnames
        exact hnames.of_append_left)
    obtain ⟨st2, e2, hm2, hrec2⟩ :=
      installSingle_bad_next env bad.name bad st1 (pre ++ bad :: post) url sha content hm1
        (hlk bad (List.mem_append.mpr (Or.inr (List.mem_cons_self bad post))))
        hosb hurl hsha hnet hsum
    have estep : installList env true ((pre ++ bad :: post).map (fun p => p.name)) st =
        (.error .integrity, st2) := by
      rw [List.map_append, List.map_cons,
        installList_append_ok env true (pre.map (fun p => p.name)) st st1 _ e1]
      simp only [installList, e2]
    rw [estep]
    refine ⟨rfl, rfl, ?_⟩
    show read_record st2.recordFile = _
    rw [hrec2, hrec1, hrec, List.nil_append]

/-! ## Remaining witnesses at the concrete fixtures -/

/-- Witness for C1: the fixture package whose manifest hash is `"00"`. -/
theorem install_checksum_mismatch_aborts_witness :
    (install_package wEnv "Bad".toList true (wSt [wPkgBad])).1 = .error .integrity :=
  (install_checksum_mismatch_aborts wEnv (wSt [wPkgBad]) [wPkgBad] wPkgBad "Bad".toList
    "http://h.example/b.zip".toList "00".toList [3] rfl (by decide) (by decide) (by decide)
    rfl rfl rfl (by decide)).1

/-- Witness for C7: re-installing the fixture package. -/
theorem install_twice_single_entry_witness :
    ∃ st1 st2,
      install_package { wEnv with now := "t1".toList } "Foo".toList true (wSt [wPkg]) =
        (.ok, st1) ∧
      install_package { wEnv with now := "t2".toList } "Foo".toList true st1 = (.ok, st2) ∧
      countKey (read_record st2.recordFile) "Foo".toList = 1 ∧
      recordGet (read_record st2.recordFile) "Foo".toList =
        some (RecEntry.mk "1.0".toList "t2".toList) :=
  install_twice_single_entry wEnv "t1".toList "t2".toList (wSt [wPkg]) [wPkg] wPkg
    "Foo".toList "http://h.example/a.zip".toList (sha256Hex [1, 2]) [1, 2]
    rfl (by decide) (by decide) (by decide) rfl rfl rfl rfl (by decide)

/-- Witness for C8: the fixture environment answers `" maybe "`. -/
theorem prompt_cancellation_clean_witness :
    install_package wEnv "Foo".toList false (wSt [wPkg]) = (.cancelled, wSt [wPkg]) :=
  (prompt_cancellation_clean wEnv (wSt [wPkg]) [wPkg] wPkg "Foo".toList rfl (by decide)
    (by decide) (by decide) (by decide)).1

/-- Witness for C9: installing the fixture package as `"Foo"` and `"foo"`. -/
theorem install_case_spelling_distinct_witness :
    ∃ st1 st2,
      install_package wEnv "Foo".toList true (wSt [wPkg]) = (.ok, st1) ∧
      install_package wEnv "foo".toList true st1 = (.ok, st2) ∧
      get_installation_path "Linux".toList "Foo".toList ≠
        get_installation_path "Linux".toList "foo".toList ∧
      get_installation_path "Linux".toList "Foo".toList ∈ st2.dirs ∧
      get_installation_path "Linux".toList "foo".toList ∈ st2.dirs ∧
      recordHasKey (read_record st2.recordFile) "Foo".toList = true ∧
      recordHasKey (read_record st2.recordFile) "foo".toList = true :=
  install_case_spelling_distinct wEnv (wSt [wPkg]) [wPkg] wPkg "Foo".toList "foo".toList
    "http://h.example/a.zip".toList (sha256Hex [1, 2]) [1, 2] rfl (by decide) (by decide)
    (by decide) (by decide) (by decide) (by decide) (by decide) rfl rfl rfl rfl

/-- Witness for C3: an all-good two-package manifest succeeds; a manifest
whose second package fails verification aborts with the integrity error. -/
theorem install_wildcard_fail_fast_witness :
    (install_package wEnv "*".toList true (wSt [wPkg, wPkg2])).1 = .ok ∧
    (install_package wEnv "*".toList true (wSt [wPkg, wPkgBad])).1 = .error .integrity :=
  ⟨((install_wildcard_fail_fast wEnv (wSt [wPkg, wPkg2]) [wPkg, wPkg2] rfl rfl
      (by decide) (by decide)).1
      (by
        intro p hp
        rcases List.mem_cons.mp hp with rfl | hp2
        · exact ⟨by decide, "http://h.example/a.zip".toList, sha256Hex [1, 2], [1, 2],
            rfl, rfl, rfl, rfl⟩
        · rcases List.mem_cons.mp hp2 with rfl | h3
          · exact ⟨by decide, "http://h.example/c.zip".toList, sha256Hex [4], [4],
              rfl, rfl, rfl, rfl⟩
          · simp at h3)).1,
   ((install_wildcard_fail_fast wEnv (wSt [wPkg, wPkgBad]) [wPkg, wPkgBad] rfl rfl
      (by decide) (by decide)).2 [wPkg] wPkgBad [] rfl
      (by
        intro p hp
        rcases List.mem_cons.mp hp with rfl | hp2
        · exact ⟨by decide, "http://h.example/a.zip".toList, sha256Hex [1, 2], [1, 2],
            rfl, rfl, rfl, rfl⟩
        · simp at hp2)
      ⟨by decide, "http://h.example/b.zip".toList, "00".toList, [3], rfl, rfl, rfl,
        by decide⟩).1⟩

end PackageBox
